import Mathlib

/-
Verification development for the retroreflector CAD generator.

The repository builds a staggered lattice of a rotated-and-cut cube cell,
clips it to a rectangular footprint, adds a substrate slab and a frame,
and exports the result to STEP.  The solid-modelling kernel (CadQuery /
OCCT) is an external collaborator: solids are modelled here by the data
the repository's own code actually inspects — their axis-aligned bounding
boxes, placement translations, and the symbolic pipeline of kernel calls.
Coordinates are modelled by rationals where the code is pure arithmetic,
and by reals where trigonometric derivations are involved.
-/

/-! ## Lattice footprint (`src/geometry_clip.py`) -/

/-- Planar bounding box of the lattice placement centres
(`PatternBBox` dataclass, `src/geometry_clip.py` lines 7–12). -/
structure PatternBBox where
  xmin : ℚ
  xmax : ℚ
  ymin : ℚ
  ymax : ℚ
deriving DecidableEq, Repr

/-- `pattern_bounding_box_xy` (`src/geometry_clip.py` lines 14–34).
Python raises `ValueError`; we model a raise as `Except.error` carrying the
message. `nx`, `ny` are Python ints, hence `ℤ`. -/
def pattern_bounding_box_xy (nx ny : ℤ) (dx dy dx0 : ℚ) : Except String PatternBBox :=
  if nx ≤ 0 ∨ ny ≤ 0 then .error "nx and ny must be > 0"
  else if dx ≤ 0 ∨ dy ≤ 0 then .error "dx and dy must be > 0"
  else
    let x0 : ℚ := 0
    let x1 : ℚ := ((nx : ℚ) - 1) * dx
    if 2 ≤ ny then
      .ok ⟨min x0 dx0, max x1 (((nx : ℚ) - 1) * dx + dx0), 0, ((ny : ℚ) - 1) * dy⟩
    else
      .ok ⟨x0, x1, 0, ((ny : ℚ) - 1) * dy⟩

/-! ## Axis-aligned 3-D bounding boxes -/

/-- A kernel `BoundBox`, restricted to the six bounds the code reads. -/
structure BBox3 where
  xmin : ℚ
  xmax : ℚ
  ymin : ℚ
  ymax : ℚ
  zmin : ℚ
  zmax : ℚ
deriving DecidableEq, Repr

/-- Kernel fact: the bounding box of a translated shape is the translated
bounding box. Used for `base.moved(Location(Vector(x, y, 0)))`. -/
def bbTranslate (b : BBox3) (tx ty tz : ℚ) : BBox3 :=
  ⟨b.xmin + tx, b.xmax + tx, b.ymin + ty, b.ymax + ty, b.zmin + tz, b.zmax + tz⟩

/-- Kernel fact: bounding box of `generate_rectangle(a,b,c).translate((cx,cy,cz))`
— a box of size `a×b×c` centred at the origin, then translated. -/
def boxBB (a b c cx cy cz : ℚ) : BBox3 :=
  ⟨cx - a / 2, cx + a / 2, cy - b / 2, cy + b / 2, cz - c / 2, cz + c / 2⟩

/-- `_bbox_contains` (`src/geometry_clip.py` lines 68–73). -/
def bbox_contains (bb_outer bb_inner : BBox3) : Bool :=
  bb_inner.xmin ≥ bb_outer.xmin && bb_inner.xmax ≤ bb_outer.xmax &&
  bb_inner.ymin ≥ bb_outer.ymin && bb_inner.ymax ≤ bb_outer.ymax &&
  bb_inner.zmin ≥ bb_outer.zmin && bb_inner.zmax ≤ bb_outer.zmax

/-- `_bbox_intersects` (`src/geometry_clip.py` lines 75–80). -/
def bbox_intersects (a b : BBox3) : Bool :=
  !(a.xmax < b.xmin || a.xmin > b.xmax ||
    a.ymax < b.ymin || a.ymin > b.ymax ||
    a.zmax < b.zmin || a.zmin > b.zmax)

/-! ## The spatial clipper (`clip_pattern_only_outer_cubes`) -/

/-- Placement of the cell in column `i`, row `j` as computed by the clip
loop (`src/geometry_clip.py` lines 191–197): `y = j*dy`,
`x_off = dx0 if j % 2 == 1 else 0`, `x = i*dx + x_off`, `z = 0`. -/
def clipCellPos (dx dy dx0 : ℚ) (i j : ℕ) : ℚ × ℚ × ℚ :=
  ((i : ℚ) * dx + (if j % 2 = 1 then dx0 else 0), (j : ℚ) * dy, 0)

/-- An entry of the `kept` list: an untouched reference to the moved base
cell, or the result of one boolean intersection with the region solid. -/
inductive KeptItem
  | ref (i j : ℕ)
  | clipped (i j : ℕ)
deriving DecidableEq, Repr

/-- The clip loop's accumulated state: the `kept` list (in append order)
and the `clipped_count` counter. -/
structure ClipResult where
  kept : List KeptItem
  clippedCount : ℕ
deriving DecidableEq, Repr

/-- Body of the inner clip loop (`src/geometry_clip.py` lines 195–215):
classify one cell by its AABB and extend the accumulator. The boolean
`intersect` call is performed exactly on the third branch, where
`clipped_count` is incremented. -/
def processCell (regionBB baseBB : BBox3) (dx dy dx0 : ℚ) (j i : ℕ)
    (acc : ClipResult) : ClipResult :=
  let pos := clipCellPos dx dy dx0 i j
  let instBB := bbTranslate baseBB pos.1 pos.2.1 pos.2.2
  if bbox_contains regionBB instBB then
    ⟨acc.kept ++ [.ref i j], acc.clippedCount⟩
  else if !bbox_intersects regionBB instBB then
    acc
  else
    ⟨acc.kept ++ [.clipped i j], acc.clippedCount + 1⟩

/-- `clip_pattern_only_outer_cubes` (`src/geometry_clip.py` lines 82–220).
The base cube is represented by its kernel bounding box `baseBB`; the
clipping solid is `generate_rectangle(sx, sy, z_height)` translated to the
margin-expanded footprint centre (its own validation, `src/geometry.py`
line 27, is the `"All dimensions must be > 0"` branch). -/
def clip_pattern_only_outer_cubes (baseBB : BBox3) (nx ny : ℤ)
    (dx dy dx0 margin_x margin_y z_height z_center : ℚ) :
    Except String ClipResult :=
  if nx ≤ 0 ∨ ny ≤ 0 then .error "nx and ny must be > 0"
  else if dx ≤ 0 ∨ dy ≤ 0 then .error "dx and dy must be > 0"
  else if z_height ≤ 0 then .error "z_height must be > 0"
  else
    match pattern_bounding_box_xy nx ny dx dy dx0 with
    | .error e => .error e
    | .ok bb =>
      let xmin := bb.xmin - margin_x
      let xmax := bb.xmax + margin_x
      let ymin := bb.ymin - margin_y
      let ymax := bb.ymax + margin_y
      if xmax - xmin ≤ 0 ∨ ymax - ymin ≤ 0 ∨ z_height ≤ 0 then
        .error "All dimensions must be > 0"
      else
        let cx := (xmin + xmax) / 2
        let cy := (ymin + ymax) / 2
        let regionBB := boxBB (xmax - xmin) (ymax - ymin) z_height cx cy z_center
        .ok ((List.range ny.toNat).foldl
          (fun acc j =>
            (List.range nx.toNat).foldl
              (fun acc i => processCell regionBB baseBB dx dy dx0 j i acc) acc)
          ⟨[], 0⟩)

/-! ## Declarative AABB classification (spec rules 2–4) -/

/-- Outcome of the AABB classification of one candidate cell. -/
inductive CellClass
  | interior
  | boundary
  | outside
deriving DecidableEq, Repr

/-- The spec's classification: fully contained → interior (kept as a bare
reference); intersecting but not contained → boundary (one boolean
intersection); otherwise → outside (dropped). -/
def classifyCell (regionBB baseBB : BBox3) (dx dy dx0 : ℚ) (i j : ℕ) : CellClass :=
  let pos := clipCellPos dx dy dx0 i j
  let instBB := bbTranslate baseBB pos.1 pos.2.1 pos.2.2
  if bbox_contains regionBB instBB then .interior
  else if bbox_intersects regionBB instBB then .boundary
  else .outside

/-- All `(row, column)` index pairs in the loop's visiting order
(row-major: `j` outer, `i` inner). -/
def allCells (nxN nyN : ℕ) : List (ℕ × ℕ) :=
  (List.range nyN).flatMap fun j => (List.range nxN).map fun i => (j, i)

/-- What the claim says one cell contributes to the `kept` list. -/
def cellOutcome (regionBB baseBB : BBox3) (dx dy dx0 : ℚ) (ji : ℕ × ℕ) :
    Option KeptItem :=
  match classifyCell regionBB baseBB dx dy dx0 ji.2 ji.1 with
  | .interior => some (.ref ji.2 ji.1)
  | .boundary => some (.clipped ji.2 ji.1)
  | .outside => none

/-! ## Spec-side cell placement rule -/

/-- Modelled from the spec's CellPlacement rule: cell `(row j, col i)` is
translated by `(i*dx + (dx0 if j is odd else 0), j*dy, 0)`. Used as the
refinement target for the code's placement computations. -/
def specCellTransform (dx dy dx0 : ℚ) (i j : ℕ) : ℚ × ℚ × ℚ :=
  ((i : ℚ) * dx + (if Odd j then dx0 else 0), (j : ℚ) * dy, 0)

/-! ## Block assembler (`src/pattern_assembly.py`) -/

/-- Local cell placement inside a row block (`make_nrow_compound`,
`src/pattern_assembly.py` lines 33–39): `y = r*dy`,
`x_off = dx0 if (row_start_parity + r) & 1 else 0`, `x = i*dx + x_off`. -/
def nrowLocalPos (dx dy dx0 : ℚ) (parity r i : ℕ) : ℚ × ℚ × ℚ :=
  ((i : ℚ) * dx + (if (parity + r) % 2 = 1 then dx0 else 0), (r : ℚ) * dy, 0)

/-- The translations of the `nrows*nx` copies of the base cell in a
row-block compound, in construction order (`r` outer, `i` inner). -/
def nrowPositions (dx dy dx0 : ℚ) (parity nxN nrowsN : ℕ) : List (ℚ × ℚ × ℚ) :=
  (List.range nrowsN).flatMap fun r =>
    (List.range nxN).map fun i => nrowLocalPos dx dy dx0 parity r i

/-- `make_nrow_compound` (`src/pattern_assembly.py` lines 5–41): validation,
then the compound represented by the list of copy translations. -/
def make_nrow_compound (nx nrows : ℤ) (dx dy dx0 : ℚ) (row_start_parity : ℤ) :
    Except String (List (ℚ × ℚ × ℚ)) :=
  if nx ≤ 0 ∨ nrows ≤ 0 then .error "nx and nrows must be > 0"
  else if dx ≤ 0 ∨ dy ≤ 0 then .error "dx and dy must be > 0"
  else if row_start_parity ≠ 0 ∧ row_start_parity ≠ 1 then
    .error "row_start_parity must be 0 or 1"
  else .ok (nrowPositions dx dy dx0 row_start_parity.toNat nx.toNat nrows.toNat)

/-- A leaf of the assembly: a prototype index (0 = even block, 1 = odd
block, 2 = tail) plus a translation-only location. -/
structure Placement where
  protoIdx : ℕ
  loc : ℚ × ℚ × ℚ
deriving DecidableEq, Repr

/-- The assembly model: the prototype compounds that were built, and the
placed instances in insertion order. -/
structure AsmModel where
  protos : List (List (ℚ × ℚ × ℚ))
  placements : List Placement
deriving DecidableEq, Repr

/-- `make_pattern_assembly` (`src/pattern_assembly.py` lines 90–157):
validation, two full-block prototypes, one placement per full block chosen
by the parity of its starting row, and an optional tail prototype placed
once. Python `//` and `%` agree with `Int.div`/`Int.emod` on the positive
operands guaranteed by the validation. -/
def make_pattern_assembly (nx ny : ℤ) (dx dy dx0 : ℚ) (block_rows : ℤ) :
    Except String AsmModel :=
  if nx ≤ 0 ∨ ny ≤ 0 then .error "nx and ny must be > 0"
  else if dx ≤ 0 ∨ dy ≤ 0 then .error "dx and dy must be > 0"
  else if ¬(1 ≤ block_rows ∧ block_rows < ny) then
    .error "block_rows must satisfy 1 <= block_rows < ny"
  else do
    let fullBlocks := (ny / block_rows).toNat
    let rem := (ny % block_rows).toNat
    let blockEven ← make_nrow_compound nx block_rows dx dy dx0 0
    let blockOdd ← make_nrow_compound nx block_rows dx dy dx0 1
    let fullPlacements := (List.range fullBlocks).map fun b =>
      let startRow := b * block_rows.toNat
      ({ protoIdx := if startRow % 2 = 1 then 1 else 0,
         loc := (0, (startRow : ℚ) * dy, 0) } : Placement)
    if rem ≠ 0 then
      let startRow := fullBlocks * block_rows.toNat
      let tail ← make_nrow_compound nx (rem : ℤ) dx dy dx0 ((startRow % 2 : ℕ) : ℤ)
      pure ⟨[blockEven, blockOdd, tail],
            fullPlacements ++ [⟨2, (0, (startRow : ℚ) * dy, 0)⟩]⟩
    else
      pure ⟨[blockEven, blockOdd], fullPlacements⟩

/-- Componentwise translation of a position. -/
def addQ3 (v p : ℚ × ℚ × ℚ) : ℚ × ℚ × ℚ :=
  (v.1 + p.1, v.2.1 + p.2.1, v.2.2 + p.2.2)

/-- Flattening an assembly: each leaf's effective position is its
prototype-local position composed with the placement translation. -/
def flattenAsm (A : AsmModel) : List (ℚ × ℚ × ℚ) :=
  A.placements.flatMap fun pl => (A.protos.getD pl.protoIdx []).map (addQ3 pl.loc)

/-- All lattice cell positions in row-major order, per the spec's
staggering rule. -/
def latticePositions (dx dy dx0 : ℚ) (nxN nyN : ℕ) : List (ℚ × ℚ × ℚ) :=
  (List.range nyN).flatMap fun j =>
    (List.range nxN).map fun i => specCellTransform dx dy dx0 i j

/-! ## Auxiliary solids: substrate and frame -/

/-- A rectangular prism, recorded by its sizes and centre
(`generate_rectangle(size_x, size_y, h).translate((cx, cy, cz))`). -/
structure SubstrateBox where
  sizeX : ℚ
  sizeY : ℚ
  h : ℚ
  cx : ℚ
  cy : ℚ
  cz : ℚ
deriving DecidableEq, Repr

/-- `make_substrate_from_pattern_xy` (`src/geometry_clip.py` lines
222–267). The pattern solid is opaque; the code reads only its kernel
bounding box's minimum Z, passed here as `patternZmin`. -/
def make_substrate_from_pattern_xy (patternZmin : ℚ) (nx ny : ℤ)
    (dx dy dx0 margin_x margin_y h z_offset : ℚ) : Except String SubstrateBox :=
  if h ≤ 0 then .error "h must be > 0"
  else
    match pattern_bounding_box_xy nx ny dx dy dx0 with
    | .error e => .error e
    | .ok bb =>
      let size_x := (bb.xmax - bb.xmin) + 2 * margin_x
      let size_y := (bb.ymax - bb.ymin) + 2 * margin_y
      if size_x ≤ 0 ∨ size_y ≤ 0 then .error "Invalid substrate XY dimensions"
      else
        let cx := (bb.xmin + bb.xmax) / 2
        let cy := (bb.ymin + bb.ymax) / 2
        let z_center := patternZmin - h / 2 + z_offset
        .ok ⟨size_x, size_y, h, cx, cy, z_center⟩

/-- `add_substrate` (`src/pattern_assembly.py` lines 171–210). `assyZmin`
is `assembly_zmin(assy)`, the kernel's minimum Z over the assembly; the
function performs no validation. -/
def add_substrate (assyZmin thickness margin : ℚ) (nx ny : ℤ)
    (dx dy dx0 edge_length_mm : ℚ) : SubstrateBox :=
  let x_min : ℚ := 0
  let x_max : ℚ := ((nx : ℚ) - 1) * dx
  let x_min := if 2 ≤ ny then min x_min dx0 else x_min
  let x_max := if 2 ≤ ny then max x_max (((nx : ℚ) - 1) * dx + dx0) else x_max
  let y_min : ℚ := 0
  let y_max : ℚ := ((ny : ℚ) - 1) * dy
  let half := edge_length_mm / 2
  let x_min := x_min - (half + margin)
  let x_max := x_max + (half + margin)
  let y_min := y_min - (half + margin)
  let y_max := y_max + (half + margin)
  ⟨x_max - x_min, y_max - y_min, thickness,
   (x_min + x_max) / 2, (y_min + y_max) / 2, assyZmin - thickness / 2⟩

/-- The frame ring: outer prism minus inner prism, with its placement. -/
structure FrameBox where
  outerX : ℚ
  outerY : ℚ
  innerX : ℚ
  innerY : ℚ
  cx : ℚ
  cy : ℚ
  cz : ℚ
  frameH : ℚ
deriving DecidableEq, Repr

/-- `add_frame_around_pattern` (`src/pattern_assembly.py` lines 213–325).
`assyZmin`/`assyZmax` are the kernel bounding-box Z bounds of the
assembly already holding pattern and substrate. An error is raised before
the frame is added to the assembly. -/
def add_frame_around_pattern (assyZmin assyZmax substrate_thickness margin : ℚ)
    (nx ny : ℤ) (dx dy dx0 edge_length_mm clearance : ℚ) :
    Except String FrameBox :=
  if substrate_thickness ≤ 0 then .error "substrate_thickness must be > 0"
  else if margin < 0 ∨ clearance < 0 then .error "margin and clearance must be >= 0"
  else if nx ≤ 0 ∨ ny ≤ 0 then .error "nx and ny must be > 0"
  else if dx ≤ 0 ∨ dy ≤ 0 then .error "dx and dy must be > 0"
  else if edge_length_mm ≤ 0 then .error "edge_length_mm must be > 0"
  else
    let z_pattern_min := assyZmin + substrate_thickness
    let frame_h := assyZmax - z_pattern_min
    if frame_h ≤ 0 then
      .error "Computed frame height <= 0. Check that the assembly contains the pattern above the substrate."
    else
      let x_min : ℚ := 0
      let x_max : ℚ := ((nx : ℚ) - 1) * dx
      let x_min := if 2 ≤ ny then min x_min dx0 else x_min
      let x_max := if 2 ≤ ny then max x_max (((nx : ℚ) - 1) * dx + dx0) else x_max
      let y_min : ℚ := 0
      let y_max : ℚ := ((ny : ℚ) - 1) * dy
      let half := edge_length_mm / 2
      let x_min_out := x_min - (half + margin)
      let x_max_out := x_max + (half + margin)
      let y_min_out := y_min - (half + margin)
      let y_max_out := y_max + (half + margin)
      let outer_x := x_max_out - x_min_out
      let outer_y := y_max_out - y_min_out
      let x_min_in := x_min - (half + clearance)
      let x_max_in := x_max + (half + clearance)
      let y_min_in := y_min - (half + clearance)
      let y_max_in := y_max + (half + clearance)
      let inner_x := x_max_in - x_min_in
      let inner_y := y_max_in - y_min_in
      if inner_x ≥ outer_x ∨ inner_y ≥ outer_y then
        .error "Inner opening is larger than outer frame. Reduce clearance or increase margin."
      else
        .ok ⟨outer_x, outer_y, inner_x, inner_y,
             (x_min_out + x_max_out) / 2, (y_min_out + y_max_out) / 2,
             z_pattern_min + frame_h / 2, frame_h⟩

/-! ## STEP export path handling (`src/cad_export.py`) -/

/-- What kind of entry a rendered path names on the filesystem. -/
inductive FileKind
  | absent
  | file
  | dir
deriving DecidableEq, Repr

/-- The observable filesystem, as the export code queries it. -/
def FsModel := String → FileKind

/-- A POSIX path split into parent components and a final component. -/
structure PyPath where
  dirs : List String
  name : String
deriving DecidableEq, Repr

/-- Rendering a path for filesystem lookups. -/
def renderPath (p : PyPath) : String :=
  String.intercalate "/" (p.dirs ++ [p.name])

/-- `PurePath.suffix` of CPython's pathlib: the part of the final
component from its last dot; empty when the dot is missing, leading, or
trailing. -/
def pathSuffix (name : String) : String :=
  let cs := name.data
  match cs.reverse.findIdx? (fun c => c = '.') with
  | none => ""
  | some jRev =>
    let i := cs.length - 1 - jRev
    if 0 < i ∧ i < cs.length - 1 then String.mk (cs.drop i) else ""

/-- Python's `str.lower` restricted to the ASCII suffixes compared here:
lower-case every character. -/
def strLower (s : String) : String := String.mk (s.data.map Char.toLower)

/-- The exceptions raised by the export path layer. -/
inductive PErr
  | valueError (msg : String)
  | fileExistsError (msg : String)
deriving DecidableEq, Repr

/-- Filesystem side effects, in the order performed. -/
inductive FsAction
  | mkdirParents (dirs : List String)
  | writeFile (p : String)
deriving DecidableEq, Repr

/-- Directory check, parent creation and overwrite protection
(`src/cad_export.py` lines 23–34), applied to the suffix-normalized path.
`path.exists()` is `fs (renderPath p) ≠ .absent`; `path.is_dir()` is
`fs (renderPath p) = .dir`. -/
def validateTail (fs : FsModel) (p : PyPath) (overwrite : Bool) :
    List FsAction × Except PErr PyPath :=
  if fs (renderPath p) = .dir then
    ([], .error (.valueError "filepath points to a directory, not a file"))
  else
    let acts := [FsAction.mkdirParents p.dirs]
    if fs (renderPath p) ≠ .absent ∧ overwrite = false then
      (acts, .error (.fileExistsError (renderPath p)))
    else (acts, .ok p)

/-- `_validate_step_path` (`src/cad_export.py` lines 4–34): the performed
filesystem actions, plus the normalized path or the raised error.
`expanduser`/`resolve` are modelled as the identity. -/
def validate_step_path (fs : FsModel) (p : PyPath) (overwrite : Bool) :
    List FsAction × Except PErr PyPath :=
  if p.name = "" then
    ([], .error (.valueError "filepath must include a filename"))
  else
    let sfx := pathSuffix p.name
    if sfx = "" then
      validateTail fs { p with name := p.name ++ ".step" } overwrite
    else if ¬(strLower sfx = ".step" ∨ strLower sfx = ".stp") then
      ([], .error (.valueError "File extension must be .step or .stp"))
    else validateTail fs p overwrite

/-- `export_step` (`src/cad_export.py` lines 37–71): validate, then write
the STEP file. On a validation error nothing is written. -/
def export_step (fs : FsModel) (p : PyPath) (overwrite : Bool) :
    List FsAction × Except PErr PyPath :=
  match validate_step_path fs p overwrite with
  | (acts, .ok path) => (acts ++ [.writeFile (renderPath path)], .ok path)
  | (acts, .error e) => (acts, .error e)

/-! ## Real-valued geometry (`src/geometry.py`, `src/test_cut_in_xy_plan_center.py`) -/

/-- A kernel bounding box over ℝ. -/
structure BBox3R where
  xmin : ℝ
  xmax : ℝ
  ymin : ℝ
  ymax : ℝ
  zmin : ℝ
  zmax : ℝ

/-- `math.degrees`. -/
noncomputable def degOfRad (x : ℝ) : ℝ := x * 180 / Real.pi

/-- `math.radians`. -/
noncomputable def radOfDeg (x : ℝ) : ℝ := x * Real.pi / 180

/-- Point set of `generate_rectangle(a,b,c).translate((cx,cy,cz))`: the
closed box of size `a×b×c` centred at `(cx,cy,cz)`. -/
def boxPts (a b c cx cy cz : ℝ) : Set (ℝ × ℝ × ℝ) :=
  {p | cx - a / 2 ≤ p.1 ∧ p.1 ≤ cx + a / 2 ∧
       cy - b / 2 ≤ p.2.1 ∧ p.2.1 ≤ cy + b / 2 ∧
       cz - c / 2 ≤ p.2.2 ∧ p.2.2 ≤ cz + c / 2}

/-- Point set of a translated solid. -/
def translatePts (s : Set (ℝ × ℝ × ℝ)) (v : ℝ × ℝ × ℝ) : Set (ℝ × ℝ × ℝ) :=
  {p | (p.1 - v.1, p.2.1 - v.2.1, p.2.2 - v.2.2) ∈ s}

/-- Kernel fact: translating a solid translates its bounding box. -/
def bbTranslateR (b : BBox3R) (tx ty tz : ℝ) : BBox3R :=
  ⟨b.xmin + tx, b.xmax + tx, b.ymin + ty, b.ymax + ty, b.zmin + tz, b.zmax + tz⟩

/-- A kernel solid: its point set together with the kernel's bounding box
(which the code queries via `BoundingBox()`). -/
structure SolidPts where
  pts : Set (ℝ × ℝ × ℝ)
  bb : BBox3R

/-- The kernel bounding box encloses the solid. -/
def SolidPts.lawful (S : SolidPts) : Prop :=
  ∀ p ∈ S.pts,
    S.bb.xmin ≤ p.1 ∧ p.1 ≤ S.bb.xmax ∧
    S.bb.ymin ≤ p.2.1 ∧ p.2.1 ≤ S.bb.ymax ∧
    S.bb.zmin ≤ p.2.2 ∧ p.2.2 ≤ S.bb.zmax

/-- The bounding box is tight at the top: some point attains `zmax`. -/
def SolidPts.topTight (S : SolidPts) : Prop :=
  ∃ p ∈ S.pts, p.2.2 = S.bb.zmax

/-- Which half to keep (`keep="top"` / `keep="bottom"`). -/
inductive KeepSide
  | top
  | bottom
deriving DecidableEq, Repr

/-- `cut_at_z_plane_from_top` (`src/geometry.py` lines 168–245) on point
sets: shift the solid so its bounding-box top sits at `z = 0`, rebuild the
halfspace box from the shifted bounding box (`pad_xy` margins in X/Y,
height `z_height` defaulting to `max(1, 2*z_span)`, top of the box at
`z_plane` when keeping the bottom), and intersect. `clean` leaves the
point set unchanged. -/
noncomputable def cut_at_z_plane_from_top (S : SolidPts) (z_plane : ℝ)
    (keep : KeepSide) (pad_xy : ℝ) (z_height? : Option ℝ) : Set (ℝ × ℝ × ℝ) :=
  let z_shift := -S.bb.zmax
  let shifted := translatePts S.pts (0, 0, z_shift)
  let bb := bbTranslateR S.bb 0 0 z_shift
  let size_x := (bb.xmax - bb.xmin) + 2 * pad_xy
  let size_y := (bb.ymax - bb.ymin) + 2 * pad_xy
  let cx := (bb.xmin + bb.xmax) / 2
  let cy := (bb.ymin + bb.ymax) / 2
  let z_span := bb.zmax - bb.zmin
  let z_height := z_height?.getD (max 1 (2 * z_span))
  let z_center :=
    match keep with
    | .top => z_plane + z_height / 2
    | .bottom => z_plane - z_height / 2
  shifted ∩ boxPts size_x size_y z_height cx cy z_center

/-- Rotation about the Z axis through the origin by an angle in degrees
(the kernel's `rotate((0,0,0),(0,0,1),deg)` on points). -/
noncomputable def rotZpt (deg : ℝ) (p : ℝ × ℝ × ℝ) : ℝ × ℝ × ℝ :=
  (p.1 * Real.cos (radOfDeg deg) - p.2.1 * Real.sin (radOfDeg deg),
   p.1 * Real.sin (radOfDeg deg) + p.2.1 * Real.cos (radOfDeg deg),
   p.2.2)

/-- Rotation about the X axis through the origin by an angle in degrees
(the kernel's `rotate((0,0,0),(1,0,0),deg)` on points). -/
noncomputable def rotXpt (deg : ℝ) (p : ℝ × ℝ × ℝ) : ℝ × ℝ × ℝ :=
  (p.1,
   p.2.1 * Real.cos (radOfDeg deg) - p.2.2 * Real.sin (radOfDeg deg),
   p.2.1 * Real.sin (radOfDeg deg) + p.2.2 * Real.cos (radOfDeg deg))

/-- `rotate_hexagonal_cube_corner` (`src/geometry.py` lines 70–86): rotate
45 degrees about the Z axis through the origin, then
`math.degrees(math.atan(math.sqrt(2)))` degrees about the X axis through
the origin. The kernel's bounding box of the rotated solid is an input
(`bbOut`), as the code queries it downstream of the rotation. -/
noncomputable def rotate_hexagonal_cube_corner (S : SolidPts) (bbOut : BBox3R) :
    SolidPts :=
  ⟨rotXpt (degOfRad (Real.arctan (Real.sqrt 2))) '' (rotZpt 45 '' S.pts), bbOut⟩

/-- The oversized cube `generate_rectangle(scale_f*edge, scale_f*edge,
scale_f*edge)` with its exact kernel bounding box. -/
noncomputable def cubeSolid (edge_length_mm scale_f : ℝ) : SolidPts :=
  ⟨boxPts (scale_f * edge_length_mm) (scale_f * edge_length_mm)
     (scale_f * edge_length_mm) 0 0 0,
   ⟨-(scale_f * edge_length_mm) / 2, scale_f * edge_length_mm / 2,
    -(scale_f * edge_length_mm) / 2, scale_f * edge_length_mm / 2,
    -(scale_f * edge_length_mm) / 2, scale_f * edge_length_mm / 2⟩⟩

/-- The unit-cell derivation of `src/test_cut_in_xy_plan_center.py`
(lines 19–46): oversized cube, corner rotation, then
`cut_at_z_plane_from_top(cube_rot,
z_plane=-scale_f*0.5*sin(radians(alpha_deg))*face_diagonal_mm,
keep="bottom")` with `alpha_deg = degrees(atan(sqrt(2)))` and
`face_diagonal_mm = sqrt(2)*edge_length_mm`. `bbRot` is the kernel
bounding box of the rotated cube. -/
noncomputable def unit_cell_test (edge_length_mm scale_f : ℝ) (bbRot : BBox3R) :
    Set (ℝ × ℝ × ℝ) :=
  let face_diagonal_mm := Real.sqrt 2 * edge_length_mm
  let alpha_deg := degOfRad (Real.arctan (Real.sqrt 2))
  let cube_rot := rotate_hexagonal_cube_corner (cubeSolid edge_length_mm scale_f) bbRot
  cut_at_z_plane_from_top cube_rot
    (-scale_f * (0.5 : ℝ) * Real.sin (radOfDeg alpha_deg) * face_diagonal_mm)
    .bottom 1 none

/-! ## Spec-side predicates and helper lists -/

/-- Closed-interval overlap of two AABBs in all three axes (possibly with
zero overlap volume, i.e. exactly coinciding faces). -/
def bbClosedMeet (a b : BBox3) : Prop :=
  b.xmin ≤ a.xmax ∧ a.xmin ≤ b.xmax ∧
  b.ymin ≤ a.ymax ∧ a.ymin ≤ b.ymax ∧
  b.zmin ≤ a.zmax ∧ a.zmin ≤ b.zmax

/-- The lattice cell positions of global rows `s, s+1, …, s+n-1` under the
spec's staggering rule, row-major. -/
def rowsSlice (dx dy dx0 : ℚ) (nxN s n : ℕ) : List (ℚ × ℚ × ℚ) :=
  (List.range n).flatMap fun r =>
    (List.range nxN).map fun i => specCellTransform dx dy dx0 i (s + r)

/-! ## Concrete instances used in closed witness statements -/

/-- A degenerate (point) base-cell bounding box at the origin. -/
def cexBaseBB : BBox3 := ⟨0, 0, 0, 0, 0, 0⟩

/-- A filesystem with no entries at all. -/
def fsEmpty : FsModel := fun _ => FileKind.absent

/-- A filesystem whose only entry is a regular file `out/model.step`. -/
def fsOneFile : FsModel :=
  fun s => if s = "out/model.step" then FileKind.file else FileKind.absent

/-- A filesystem where `out/model.step` is a directory. -/
def fsOneDir : FsModel :=
  fun s => if s = "out/model.step" then FileKind.dir else FileKind.absent

/-- The unit cube resting on the XY plane, with its exact bounding box. -/
noncomputable def unitCubeSolid : SolidPts :=
  ⟨boxPts 1 1 1 0 0 (1 / 2), ⟨-(1 / 2), 1 / 2, -(1 / 2), 1 / 2, 0, 1⟩⟩

/-- A generously large kernel bounding box for the rotated-cube witness. -/
def bigBB : BBox3R := ⟨-100, 100, -100, 100, -100, 100⟩

/-- The clipping region's AABB for a given footprint: the kernel bounding
box of the margin-expanded clipping box solid built by
`clip_pattern_only_outer_cubes`. -/
def clipRegion (bb : PatternBBox) (margin_x margin_y z_height z_center : ℚ) :
    BBox3 :=
  boxBB (bb.xmax + margin_x - (bb.xmin - margin_x))
    (bb.ymax + margin_y - (bb.ymin - margin_y)) z_height
    ((bb.xmin - margin_x + (bb.xmax + margin_x)) / 2)
    ((bb.ymin - margin_y + (bb.ymax + margin_y)) / 2) z_center

/-! # Theorems -/

/-- `_bbox_contains` is exactly the conjunction of the six non-strict
closed-interval comparisons. -/
theorem bbox_contains_iff (outer inner : BBox3) :
    bbox_contains outer inner = true ↔
      (outer.xmin ≤ inner.xmin ∧ inner.xmax ≤ outer.xmax ∧
       outer.ymin ≤ inner.ymin ∧ inner.ymax ≤ outer.ymax ∧
       outer.zmin ≤ inner.zmin ∧ inner.zmax ≤ outer.zmax) := by
  simp [bbox_contains, ge_iff_le, and_assoc]

/-- `_bbox_intersects` holds exactly on closed-interval overlap, so AABBs
whose faces merely touch are classified as intersecting. -/
theorem bbox_intersects_iff (a b : BBox3) :
    bbox_intersects a b = true ↔ bbClosedMeet a b := by
  simp [bbox_intersects, bbClosedMeet, not_or, not_lt, and_assoc]

/-- Claim C5: containment requires all six non-strict comparisons;
boundary-touching AABBs (closed-interval overlap, possibly of zero
volume) are intersecting, and in the clip classification such a
non-contained candidate is a boundary case — never silently dropped. -/
theorem C5_tie_break (outer inner regionBB baseBB : BBox3)
    (dx dy dx0 : ℚ) (i j : ℕ) :
    (bbox_contains outer inner = true ↔
      (outer.xmin ≤ inner.xmin ∧ inner.xmax ≤ outer.xmax ∧
       outer.ymin ≤ inner.ymin ∧ inner.ymax ≤ outer.ymax ∧
       outer.zmin ≤ inner.zmin ∧ inner.zmax ≤ outer.zmax)) ∧
    (bbox_intersects outer inner = true ↔ bbClosedMeet outer inner) ∧
    (bbClosedMeet regionBB
        (bbTranslate baseBB (clipCellPos dx dy dx0 i j).1
          (clipCellPos dx dy dx0 i j).2.1 (clipCellPos dx dy dx0 i j).2.2) →
      bbox_contains regionBB
        (bbTranslate baseBB (clipCellPos dx dy dx0 i j).1
          (clipCellPos dx dy dx0 i j).2.1 (clipCellPos dx dy dx0 i j).2.2) = false →
      classifyCell regionBB baseBB dx dy dx0 i j = .boundary) := by
  refine ⟨bbox_contains_iff outer inner, bbox_intersects_iff outer inner,
    fun hm hc => ?_⟩
  simp only [classifyCell]
  rw [hc, (bbox_intersects_iff _ _).mpr hm]
  rfl

/-- Closed instance of C5: the candidate box touches the region boundary
at the face x = 1 with zero overlap volume and is classified boundary. -/
theorem C5_tie_break_witness :
    classifyCell ⟨0, 1, 0, 1, 0, 1⟩ ⟨1, 2, 0, 1, 0, 1⟩ 1 1 1 0 0 =
      CellClass.boundary :=
  (C5_tie_break ⟨0, 1, 0, 1, 0, 1⟩ ⟨1, 2, 0, 1, 0, 1⟩ ⟨0, 1, 0, 1, 0, 1⟩
      ⟨1, 2, 0, 1, 0, 1⟩ 1 1 1 0 0).2.2
    (by norm_num [bbClosedMeet, bbTranslate, clipCellPos])
    (by norm_num [bbox_contains, bbTranslate, clipCellPos])

/-- The clip loop's per-cell placement agrees with the spec staggering
rule (`j % 2 == 1` versus "j is odd"). -/
theorem clipCellPos_eq_spec (dx dy dx0 : ℚ) (i j : ℕ) :
    clipCellPos dx dy dx0 i j = specCellTransform dx dy dx0 i j := by
  simp [clipCellPos, specCellTransform, Nat.odd_iff]

/-- The row-block builder's local placement, spelled with parity of
`p + r`. -/
theorem nrowLocalPos_eq (dx dy dx0 : ℚ) (p r i : ℕ) :
    nrowLocalPos dx dy dx0 p r i =
      ((i : ℚ) * dx + (if Odd (p + r) then dx0 else 0), (r : ℚ) * dy, 0) := by
  simp [nrowLocalPos, Nat.odd_iff]

/-- A block starting at global row `s` (prototype parity `s % 2`),
translated by `(0, s*dy, 0)`, places its local cell `(r, i)` exactly at
the spec position of global cell `(i, s + r)`. -/
theorem blockCell_global (dx dy dx0 : ℚ) (s r i : ℕ) :
    addQ3 (0, (s : ℚ) * dy, 0) (nrowLocalPos dx dy dx0 (s % 2) r i) =
      specCellTransform dx dy dx0 i (s + r) := by
  have hmod : (s % 2 + r) % 2 = (s + r) % 2 := by omega
  simp only [addQ3, nrowLocalPos, specCellTransform, Nat.odd_iff, hmod,
    Prod.mk.injEq]
  exact ⟨by ring, by push_cast; ring, by ring⟩

/-- Claim C2: the clipper's placement loop and the row-block builder both
compute the single staggering rule
`(i*dx + (dx0 if row odd else 0), row*dy, 0)`; a block with start parity
`s % 2` translated by `(0, s*dy, 0)` reproduces the global rule. -/
theorem C2_cell_placement (dx dy dx0 : ℚ) (i j p r s : ℕ) :
    clipCellPos dx dy dx0 i j = specCellTransform dx dy dx0 i j ∧
    nrowLocalPos dx dy dx0 p r i =
      ((i : ℚ) * dx + (if Odd (p + r) then dx0 else 0), (r : ℚ) * dy, 0) ∧
    addQ3 (0, (s : ℚ) * dy, 0) (nrowLocalPos dx dy dx0 (s % 2) r i) =
      specCellTransform dx dy dx0 i (s + r) :=
  ⟨clipCellPos_eq_spec dx dy dx0 i j, nrowLocalPos_eq dx dy dx0 p r i,
   blockCell_global dx dy dx0 s r i⟩

/-- Claim C3: under the preconditions `pattern_bounding_box_xy` returns
exactly the closed-form spans (stagger-aware x-span for ny ≥ 2); any
violated precondition raises a `ValueError` with no partial result. -/
theorem C3_footprint (nx ny : ℤ) (dx dy dx0 : ℚ) :
    (0 < nx → 0 < ny → 0 < dx → 0 < dy →
      pattern_bounding_box_xy nx ny dx dy dx0 =
        .ok ⟨if 2 ≤ ny then min 0 dx0 else 0,
             if 2 ≤ ny then
               max (((nx : ℚ) - 1) * dx) (((nx : ℚ) - 1) * dx + dx0)
             else ((nx : ℚ) - 1) * dx,
             0, ((ny : ℚ) - 1) * dy⟩) ∧
    (¬(0 < nx ∧ 0 < ny ∧ 0 < dx ∧ 0 < dy) →
      ∃ m, pattern_bounding_box_xy nx ny dx dy dx0 = .error m) := by
  constructor
  · intro h1 h2 h3 h4
    simp only [pattern_bounding_box_xy]
    rw [if_neg (by push_neg; exact ⟨h1, h2⟩),
        if_neg (by push_neg; exact ⟨h3, h4⟩)]
    by_cases hny2 : 2 ≤ ny
    · simp [hny2]
    · simp [hny2]
  · intro h
    simp only [pattern_bounding_box_xy]
    by_cases h1 : nx ≤ 0 ∨ ny ≤ 0
    · exact ⟨_, if_pos h1⟩
    · have h2 : dx ≤ 0 ∨ dy ≤ 0 := by
        by_contra h2
        push_neg at h1 h2
        exact h ⟨h1.1, h1.2, h2.1, h2.2⟩
      rw [if_neg h1, if_pos h2]
      exact ⟨_, rfl⟩

/-- Closed instance of C3 at nx=2, ny=3, dx=dy=1, dx0=1/2 (the spec's
scenario B: footprint x-span [0, 3/2], y-span [0, 2]). -/
theorem C3_footprint_witness :
    pattern_bounding_box_xy 2 3 1 1 (1 / 2) = .ok ⟨0, 3 / 2, 0, 2⟩ := by
  have h := (C3_footprint 2 3 1 1 (1 / 2)).1 (by decide) (by decide)
    (by norm_num) (by norm_num)
  rw [h]
  norm_num

/-- The classification is `interior` exactly on the contained branch. -/
theorem classifyCell_of_contains (R B : BBox3) (dx dy dx0 : ℚ) (i j : ℕ)
    (h : bbox_contains R (bbTranslate B (clipCellPos dx dy dx0 i j).1
      (clipCellPos dx dy dx0 i j).2.1 (clipCellPos dx dy dx0 i j).2.2) = true) :
    classifyCell R B dx dy dx0 i j = .interior := by
  simp only [classifyCell]
  rw [if_pos h]

/-- The classification is `boundary` on intersecting, non-contained
candidates. -/
theorem classifyCell_of_boundary (R B : BBox3) (dx dy dx0 : ℚ) (i j : ℕ)
    (h1 : bbox_contains R (bbTranslate B (clipCellPos dx dy dx0 i j).1
      (clipCellPos dx dy dx0 i j).2.1 (clipCellPos dx dy dx0 i j).2.2) = false)
    (h2 : bbox_intersects R (bbTranslate B (clipCellPos dx dy dx0 i j).1
      (clipCellPos dx dy dx0 i j).2.1 (clipCellPos dx dy dx0 i j).2.2) = true) :
    classifyCell R B dx dy dx0 i j = .boundary := by
  simp only [classifyCell, h1, h2]
  simp

/-- The classification is `outside` on disjoint candidates. -/
theorem classifyCell_of_outside (R B : BBox3) (dx dy dx0 : ℚ) (i j : ℕ)
    (h1 : bbox_contains R (bbTranslate B (clipCellPos dx dy dx0 i j).1
      (clipCellPos dx dy dx0 i j).2.1 (clipCellPos dx dy dx0 i j).2.2) = false)
    (h2 : bbox_intersects R (bbTranslate B (clipCellPos dx dy dx0 i j).1
      (clipCellPos dx dy dx0 i j).2.1 (clipCellPos dx dy dx0 i j).2.2) = false) :
    classifyCell R B dx dy dx0 i j = .outside := by
  simp only [classifyCell, h1, h2]
  simp

/-- `cellOutcome` on an interior cell. -/
theorem cellOutcome_interior (R B : BBox3) (dx dy dx0 : ℚ) (i j : ℕ)
    (h : classifyCell R B dx dy dx0 i j = .interior) :
    cellOutcome R B dx dy dx0 (j, i) = some (.ref i j) := by
  unfold cellOutcome
  rw [h]

/-- `cellOutcome` on a boundary cell. -/
theorem cellOutcome_boundary (R B : BBox3) (dx dy dx0 : ℚ) (i j : ℕ)
    (h : classifyCell R B dx dy dx0 i j = .boundary) :
    cellOutcome R B dx dy dx0 (j, i) = some (.clipped i j) := by
  unfold cellOutcome
  rw [h]

/-- `cellOutcome` on an outside cell. -/
theorem cellOutcome_outside (R B : BBox3) (dx dy dx0 : ℚ) (i j : ℕ)
    (h : classifyCell R B dx dy dx0 i j = .outside) :
    cellOutcome R B dx dy dx0 (j, i) = none := by
  unfold cellOutcome
  rw [h]

/-- One clip-loop step appends exactly the classification's outcome for
that cell, and increments the boolean-intersection counter exactly on
boundary cells. -/
theorem processCell_characterize (R B : BBox3) (dx dy dx0 : ℚ) (j i : ℕ)
    (acc : ClipResult) :
    processCell R B dx dy dx0 j i acc =
      ⟨acc.kept ++ (cellOutcome R B dx dy dx0 (j, i)).toList,
       acc.clippedCount +
         if classifyCell R B dx dy dx0 i j = .boundary then 1 else 0⟩ := by
  rcases h1 : bbox_contains R (bbTranslate B (clipCellPos dx dy dx0 i j).1
      (clipCellPos dx dy dx0 i j).2.1 (clipCellPos dx dy dx0 i j).2.2) with _ | _
  · rcases h2 : bbox_intersects R (bbTranslate B (clipCellPos dx dy dx0 i j).1
        (clipCellPos dx dy dx0 i j).2.1 (clipCellPos dx dy dx0 i j).2.2) with _ | _
    · have hcl := classifyCell_of_outside R B dx dy dx0 i j h1 h2
      have e1 : processCell R B dx dy dx0 j i acc = acc := by
        simp only [processCell]
        rw [if_neg (by simp [h1]), if_pos (by rw [h2]; rfl)]
      rw [e1, cellOutcome_outside R B dx dy dx0 i j hcl, hcl]
      simp
    · have hcl := classifyCell_of_boundary R B dx dy dx0 i j h1 h2
      have e1 : processCell R B dx dy dx0 j i acc =
          ⟨acc.kept ++ [.clipped i j], acc.clippedCount + 1⟩ := by
        simp only [processCell]
        rw [if_neg (by simp [h1]), if_neg (by rw [h2]; simp)]
      rw [e1, cellOutcome_boundary R B dx dy dx0 i j hcl, hcl]
      simp
  · have hcl := classifyCell_of_contains R B dx dy dx0 i j h1
    have e1 : processCell R B dx dy dx0 j i acc =
        ⟨acc.kept ++ [.ref i j], acc.clippedCount⟩ := by
      simp only [processCell]
      rw [if_pos h1]
    rw [e1, cellOutcome_interior R B dx dy dx0 i j hcl, hcl]
    simp

/-- Folding the clip step over any list of cells: the kept list is the
classification's filterMap, and the boolean-intersection count is the
number of boundary-classified cells. -/
theorem clipFold_characterize (R B : BBox3) (dx dy dx0 : ℚ)
    (cs : List (ℕ × ℕ)) (acc : ClipResult) :
    cs.foldl (fun a ji => processCell R B dx dy dx0 ji.1 ji.2 a) acc =
      ⟨acc.kept ++ cs.filterMap (cellOutcome R B dx dy dx0),
       acc.clippedCount +
         cs.countP fun ji =>
           decide (classifyCell R B dx dy dx0 ji.2 ji.1 = .boundary)⟩ := by
  induction cs generalizing acc with
  | nil => simp
  | cons hd tl ih =>
    simp only [List.foldl_cons]
    rw [processCell_characterize, ih, List.filterMap_cons, List.countP_cons]
    simp only [Prod.mk.eta]
    rcases ho : cellOutcome R B dx dy dx0 hd with _ | x <;>
      simp [ho, decide_eq_true_eq, List.append_assoc, Nat.add_assoc,
        Nat.add_comm, Nat.add_left_comm]

/-- The nested row/column clip loops equal a single fold over the
row-major list of cell indices. -/
theorem nestedFold_eq (R B : BBox3) (dx dy dx0 : ℚ) (nxN : ℕ)
    (rows : List ℕ) (acc : ClipResult) :
    rows.foldl
        (fun a j => (List.range nxN).foldl
          (fun a i => processCell R B dx dy dx0 j i a) a) acc =
      (rows.flatMap fun j => (List.range nxN).map fun i => (j, i)).foldl
        (fun a ji => processCell R B dx dy dx0 ji.1 ji.2 a) acc := by
  induction rows generalizing acc with
  | nil => rfl
  | cons hd tl ih =>
    simp only [List.foldl_cons, List.flatMap_cons, List.foldl_append,
      List.foldl_map, ih]

/-- Claim C1 (amended): for valid inputs whose margin-expanded footprint
extents are strictly positive, the clipper classifies every cell by its
AABB against the region AABB: contained cells are kept as bare
references, non-intersecting cells are dropped, and the remaining
boundary cells are kept as the result of exactly one boolean
intersection each — the `clipped_count` of boolean calls equals the
number of boundary-classified cells. -/
theorem C1_clip_boundary_only (baseBB : BBox3) (nx ny : ℤ)
    (dx dy dx0 margin_x margin_y z_height z_center : ℚ) (bb : PatternBBox)
    (hnx : 0 < nx) (hny : 0 < ny) (hdx : 0 < dx) (hdy : 0 < dy)
    (hzh : 0 < z_height)
    (hbb : pattern_bounding_box_xy nx ny dx dy dx0 = .ok bb)
    (hsx : 0 < bb.xmax + margin_x - (bb.xmin - margin_x))
    (hsy : 0 < bb.ymax + margin_y - (bb.ymin - margin_y)) :
    clip_pattern_only_outer_cubes baseBB nx ny dx dy dx0 margin_x margin_y
        z_height z_center =
      .ok ⟨(allCells nx.toNat ny.toNat).filterMap
             (cellOutcome (clipRegion bb margin_x margin_y z_height z_center)
               baseBB dx dy dx0),
           (allCells nx.toNat ny.toNat).countP fun ji =>
             decide (classifyCell
               (clipRegion bb margin_x margin_y z_height z_center)
               baseBB dx dy dx0 ji.2 ji.1 = .boundary)⟩ := by
  have hv1 : ¬(nx ≤ 0 ∨ ny ≤ 0) := by push_neg; exact ⟨hnx, hny⟩
  have hv2 : ¬(dx ≤ 0 ∨ dy ≤ 0) := by push_neg; exact ⟨hdx, hdy⟩
  have hv3 : ¬(z_height ≤ 0) := not_le.mpr hzh
  have hv4 : ¬(bb.xmax + margin_x - (bb.xmin - margin_x) ≤ 0 ∨
      bb.ymax + margin_y - (bb.ymin - margin_y) ≤ 0 ∨ z_height ≤ 0) := by
    push_neg
    exact ⟨by linarith, by linarith, hzh⟩
  simp only [clip_pattern_only_outer_cubes, hbb, if_neg hv1, if_neg hv2,
    if_neg hv3, if_neg hv4]
  rw [nestedFold_eq, clipFold_characterize]
  simp only [allCells, clipRegion, List.nil_append, Nat.zero_add]

/-- Claim C1 counterexample: at the valid input nx = ny = 1, dx = dy = 1,
dx0 = 0, zero margins, z_height = 1, z_center = 0, the single cell's AABB
is fully contained in the region AABB, so the claim requires it to be
kept with no boolean call — but the code raises `ValueError` from
`generate_rectangle`, because the degenerate footprint makes the clipping
box's X and Y sizes zero. -/
theorem C1_clip_cex :
    clip_pattern_only_outer_cubes cexBaseBB 1 1 1 1 0 0 0 1 0 =
      .error "All dimensions must be > 0" ∧
    classifyCell (clipRegion ⟨0, 0, 0, 0⟩ 0 0 1 0) cexBaseBB 1 1 0 0 0 =
      .interior := by
  constructor
  · norm_num [clip_pattern_only_outer_cubes, pattern_bounding_box_xy]
  · norm_num [classifyCell, clipRegion, boxBB, bbox_contains, bbTranslate,
      clipCellPos, cexBaseBB]

/-- Closed instance of C1 (amended) at nx = ny = 2, dx = dy = 1, dx0 = 0,
margins 1/2, z_height = 10, z_center = 0, with a degenerate point base
cell. -/
theorem C1_clip_boundary_only_witness :
    clip_pattern_only_outer_cubes cexBaseBB 2 2 1 1 0 (1/2) (1/2) 10 0 =
      .ok ⟨(allCells (2:ℤ).toNat (2:ℤ).toNat).filterMap
             (cellOutcome (clipRegion ⟨0, 1, 0, 1⟩ (1/2) (1/2) 10 0)
               cexBaseBB 1 1 0),
           (allCells (2:ℤ).toNat (2:ℤ).toNat).countP fun ji =>
             decide (classifyCell (clipRegion ⟨0, 1, 0, 1⟩ (1/2) (1/2) 10 0)
               cexBaseBB 1 1 0 ji.2 ji.1 = .boundary)⟩ :=
  C1_clip_boundary_only cexBaseBB 2 2 1 1 0 (1/2) (1/2) 10 0 ⟨0, 1, 0, 1⟩
    (by decide) (by decide) (by norm_num) (by norm_num) (by norm_num)
    (by norm_num [pattern_bounding_box_xy]) (by norm_num) (by norm_num)

/-- `make_nrow_compound` succeeds under its preconditions and returns the
row-block compound's translation list. -/
theorem make_nrow_compound_ok (nx nrows : ℤ) (dx dy dx0 : ℚ) (p : ℤ)
    (hnx : 0 < nx) (hnr : 0 < nrows) (hdx : 0 < dx) (hdy : 0 < dy)
    (hp : p = 0 ∨ p = 1) :
    make_nrow_compound nx nrows dx dy dx0 p =
      .ok (nrowPositions dx dy dx0 p.toNat nx.toNat nrows.toNat) := by
  simp only [make_nrow_compound]
  rw [if_neg (by push_neg; exact ⟨hnx, hnr⟩),
      if_neg (by push_neg; exact ⟨hdx, hdy⟩),
      if_neg (by rcases hp with h | h <;> simp [h])]

/-- The shape of a successful `make_pattern_assembly`: two full-block
prototypes, one placement per full block selected by start-row parity,
and (when rows remain) one tail prototype placed once. -/
theorem make_pattern_assembly_ok (nx ny block_rows : ℤ) (dx dy dx0 : ℚ)
    (hnx : 0 < nx) (hny : 0 < ny) (hdx : 0 < dx) (hdy : 0 < dy)
    (hbr1 : 1 ≤ block_rows) (hbr2 : block_rows < ny) :
    make_pattern_assembly nx ny dx dy dx0 block_rows =
      .ok (if (ny % block_rows).toNat ≠ 0 then
        ⟨[nrowPositions dx dy dx0 0 nx.toNat block_rows.toNat,
          nrowPositions dx dy dx0 1 nx.toNat block_rows.toNat,
          nrowPositions dx dy dx0
            (((ny / block_rows).toNat * block_rows.toNat) % 2)
            nx.toNat (ny % block_rows).toNat],
         ((List.range (ny / block_rows).toNat).map fun b =>
            ({ protoIdx := if (b * block_rows.toNat) % 2 = 1 then 1 else 0,
               loc := (0, ((b * block_rows.toNat : ℕ) : ℚ) * dy, 0) } :
              Placement)) ++
           [⟨2, (0, (((ny / block_rows).toNat * block_rows.toNat : ℕ) : ℚ) * dy,
              0)⟩]⟩
      else
        ⟨[nrowPositions dx dy dx0 0 nx.toNat block_rows.toNat,
          nrowPositions dx dy dx0 1 nx.toNat block_rows.toNat],
         (List.range (ny / block_rows).toNat).map fun b =>
           ({ protoIdx := if (b * block_rows.toNat) % 2 = 1 then 1 else 0,
              loc := (0, ((b * block_rows.toNat : ℕ) : ℚ) * dy, 0) } :
             Placement)⟩) := by
  have hbr0 : (0 : ℤ) < block_rows := by linarith
  simp only [make_pattern_assembly]
  rw [if_neg (by push_neg; exact ⟨hnx, hny⟩),
      if_neg (by push_neg; exact ⟨hdx, hdy⟩),
      if_neg (not_not_intro ⟨hbr1, hbr2⟩)]
  rw [make_nrow_compound_ok nx block_rows dx dy dx0 0 hnx hbr0 hdx hdy
        (Or.inl rfl),
      make_nrow_compound_ok nx block_rows dx dy dx0 1 hnx hbr0 hdx hdy
        (Or.inr rfl)]
  simp only [Except.bind, bind, Int.toNat_zero, Int.toNat_one]
  by_cases hrem : (ny % block_rows).toNat ≠ 0
  · rw [if_pos hrem, if_pos hrem]
    have hremZ : (0 : ℤ) < ((ny % block_rows).toNat : ℤ) := by
      exact_mod_cast Nat.pos_of_ne_zero hrem
    have hpar : ((((ny / block_rows).toNat * block_rows.toNat) % 2 : ℕ) : ℤ) = 0 ∨
        ((((ny / block_rows).toNat * block_rows.toNat) % 2 : ℕ) : ℤ) = 1 := by
      rcases Nat.mod_two_eq_zero_or_one
          ((ny / block_rows).toNat * block_rows.toNat) with h | h <;>
        simp [h]
    rw [make_nrow_compound_ok nx ((ny % block_rows).toNat : ℤ) dx dy dx0 _
          hnx hremZ hdx hdy hpar]
    simp only [Except.bind, bind, pure, Except.pure, Int.toNat_natCast]
  · rw [if_neg hrem, if_neg hrem]
    rfl

/-- Shifting a row-block compound of start parity `s % 2` by
`(0, s*dy, 0)` yields the lattice cells of global rows `s … s+n-1`. -/
theorem nrowPositions_shift (dx dy dx0 : ℚ) (nxN s n : ℕ) :
    (nrowPositions dx dy dx0 (s % 2) nxN n).map (addQ3 (0, (s : ℚ) * dy, 0)) =
      rowsSlice dx dy dx0 nxN s n := by
  unfold nrowPositions rowsSlice
  rw [List.map_flatMap]
  congr 1
  funext r
  rw [List.map_map]
  congr 1
  funext i
  simp only [Function.comp]
  exact blockCell_global dx dy dx0 s r i

/-- Row slices concatenate. -/
theorem rowsSlice_add (dx dy dx0 : ℚ) (nxN s n m : ℕ) :
    rowsSlice dx dy dx0 nxN s (n + m) =
      rowsSlice dx dy dx0 nxN s n ++ rowsSlice dx dy dx0 nxN (s + n) m := by
  unfold rowsSlice
  rw [List.range_add, List.flatMap_append, List.flatMap_map]
  congr 1
  congr 1
  funext r
  rw [Nat.add_assoc]

/-- A slice starting at row 0 is the full lattice prefix. -/
theorem rowsSlice_zero_start (dx dy dx0 : ℚ) (nxN n : ℕ) :
    rowsSlice dx dy dx0 nxN 0 n = latticePositions dx dy dx0 nxN n := by
  unfold rowsSlice latticePositions
  simp

/-- Flattening the full-block placements over any prototype list whose
entries 0 and 1 are the even/odd row-block compounds yields the first
`k*blockRows` lattice rows. -/
theorem blocks_flatten (dx dy dx0 : ℚ) (nxN brN : ℕ)
    (ps : List (List (ℚ × ℚ × ℚ)))
    (h0 : ps.getD 0 [] = nrowPositions dx dy dx0 0 nxN brN)
    (h1 : ps.getD 1 [] = nrowPositions dx dy dx0 1 nxN brN) (k : ℕ) :
    ((List.range k).map fun b =>
        ({ protoIdx := if (b * brN) % 2 = 1 then 1 else 0,
           loc := (0, ((b * brN : ℕ) : ℚ) * dy, 0) } : Placement)).flatMap
      (fun pl => (ps.getD pl.protoIdx []).map (addQ3 pl.loc)) =
      rowsSlice dx dy dx0 nxN 0 (k * brN) := by
  induction k with
  | zero => simp [rowsSlice]
  | succ k ih =>
    rw [List.range_succ, List.map_append, List.flatMap_append, ih]
    have hslice : rowsSlice dx dy dx0 nxN 0 ((k + 1) * brN) =
        rowsSlice dx dy dx0 nxN 0 (k * brN) ++
          rowsSlice dx dy dx0 nxN (k * brN) brN := by
      rw [Nat.succ_mul, rowsSlice_add]
      simp
    rw [hslice]
    congr 1
    simp only [List.map_cons, List.map_nil, List.flatMap_cons,
      List.flatMap_nil, List.append_nil]
    by_cases hpar : (k * brN) % 2 = 1
    · have h := nrowPositions_shift dx dy dx0 nxN (k * brN) brN
      rw [hpar] at h
      rw [if_pos hpar, h1]
      exact h
    · have hpar0 : (k * brN) % 2 = 0 := by omega
      have h := nrowPositions_shift dx dy dx0 nxN (k * brN) brN
      rw [hpar0] at h
      rw [if_neg hpar, h0]
      exact h

/-- The positive full/remainder partition of the rows, transported from
`ℤ` division to `ℕ`. -/
theorem int_div_mod_partition (ny br : ℤ) (hny : 0 < ny) (hbr : 0 < br) :
    (ny / br).toNat * br.toNat + (ny % br).toNat = ny.toNat := by
  have h1 : 0 ≤ ny / br := Int.ediv_nonneg (le_of_lt hny) (le_of_lt hbr)
  have h2 : 0 ≤ ny % br := Int.emod_nonneg ny (ne_of_gt hbr)
  have h3 := Int.ediv_add_emod ny br
  have h4 : (((ny / br).toNat * br.toNat + (ny % br).toNat : ℕ) : ℤ) =
      ((ny.toNat : ℕ) : ℤ) := by
    push_cast [Int.toNat_of_nonneg h1, Int.toNat_of_nonneg h2,
      Int.toNat_of_nonneg (le_of_lt hbr), Int.toNat_of_nonneg (le_of_lt hny)]
    linear_combination h3
  exact_mod_cast h4

/-- Claim C4: `make_pattern_assembly` builds at most two full-size
row-block prototypes plus at most one remainder prototype regardless of
ny; it partitions the rows into `ny div blockRows` full blocks plus a
`ny mod blockRows`-row remainder, places each full block `b` with the
prototype matching the parity of its starting row `b*blockRows`
translated by `(0, startRow*dy, 0)`, adds the remainder once with the
correct starting parity, and the flattened assembly is exactly the full
lattice. -/
theorem C4_block_assembly (nx ny block_rows : ℤ) (dx dy dx0 : ℚ)
    (hnx : 0 < nx) (hny : 0 < ny) (hdx : 0 < dx) (hdy : 0 < dy)
    (hbr1 : 1 ≤ block_rows) (hbr2 : block_rows < ny) :
    ∃ A : AsmModel,
      make_pattern_assembly nx ny dx dy dx0 block_rows = .ok A ∧
      A.protos.length = (if (ny % block_rows).toNat = 0 then 2 else 3) ∧
      A.protos.length ≤ 3 ∧
      A.placements.length = (ny / block_rows).toNat +
        (if (ny % block_rows).toNat = 0 then 0 else 1) ∧
      A.protos.getD 0 [] = nrowPositions dx dy dx0 0 nx.toNat block_rows.toNat ∧
      A.protos.getD 1 [] = nrowPositions dx dy dx0 1 nx.toNat block_rows.toNat ∧
      A.placements.take (ny / block_rows).toNat =
        (List.range (ny / block_rows).toNat).map (fun b =>
          ({ protoIdx := if (b * block_rows.toNat) % 2 = 1 then 1 else 0,
             loc := (0, ((b * block_rows.toNat : ℕ) : ℚ) * dy, 0) } :
            Placement)) ∧
      ((ny % block_rows).toNat ≠ 0 →
        A.placements.getLast? = some ⟨2,
          (0, (((ny / block_rows).toNat * block_rows.toNat : ℕ) : ℚ) * dy, 0)⟩ ∧
        A.protos.getD 2 [] = nrowPositions dx dy dx0
          (((ny / block_rows).toNat * block_rows.toNat) % 2)
          nx.toNat (ny % block_rows).toNat) ∧
      flattenAsm A = latticePositions dx dy dx0 nx.toNat ny.toNat := by
  have hok := make_pattern_assembly_ok nx ny block_rows dx dy dx0 hnx hny hdx
    hdy hbr1 hbr2
  have hpart := int_div_mod_partition ny block_rows hny (by linarith)
  by_cases hrem : (ny % block_rows).toNat = 0
  · rw [if_neg (by omega)] at hok
    refine ⟨_, hok, by simp [hrem], by simp, by simp [hrem], rfl, rfl, ?_,
      fun h => absurd hrem h, ?_⟩
    · have hlen : ((List.range (ny / block_rows).toNat).map (fun b =>
          ({ protoIdx := if (b * block_rows.toNat) % 2 = 1 then 1 else 0,
             loc := (0, ((b * block_rows.toNat : ℕ) : ℚ) * dy, 0) } :
            Placement))).length = (ny / block_rows).toNat := by simp
      exact List.take_of_length_le (le_of_eq hlen)
    · have hfull : (ny / block_rows).toNat * block_rows.toNat = ny.toNat := by
        rw [hrem] at hpart
        simpa using hpart
      unfold flattenAsm
      rw [blocks_flatten dx dy dx0 nx.toNat block_rows.toNat
          [nrowPositions dx dy dx0 0 nx.toNat block_rows.toNat,
           nrowPositions dx dy dx0 1 nx.toNat block_rows.toNat] rfl rfl,
        rowsSlice_zero_start, hfull]
  · rw [if_pos hrem] at hok
    refine ⟨_, hok, by simp [hrem], by simp, by simp [hrem], rfl, rfl, ?_,
      fun _ => ⟨List.getLast?_concat _, rfl⟩, ?_⟩
    · have hlen : ((List.range (ny / block_rows).toNat).map (fun b =>
          ({ protoIdx := if (b * block_rows.toNat) % 2 = 1 then 1 else 0,
             loc := (0, ((b * block_rows.toNat : ℕ) : ℚ) * dy, 0) } :
            Placement))).length = (ny / block_rows).toNat := by simp
      rw [List.take_append_of_le_length (le_of_eq hlen.symm)]
      exact List.take_of_length_le (le_of_eq hlen)
    · unfold flattenAsm
      rw [List.flatMap_append,
        blocks_flatten dx dy dx0 nx.toNat block_rows.toNat
          [nrowPositions dx dy dx0 0 nx.toNat block_rows.toNat,
           nrowPositions dx dy dx0 1 nx.toNat block_rows.toNat,
           nrowPositions dx dy dx0
             (((ny / block_rows).toNat * block_rows.toNat) % 2)
             nx.toNat (ny % block_rows).toNat] rfl rfl]
      simp only [List.flatMap_cons, List.flatMap_nil, List.append_nil]
      have hgd : (([nrowPositions dx dy dx0 0 nx.toNat block_rows.toNat,
          nrowPositions dx dy dx0 1 nx.toNat block_rows.toNat,
          nrowPositions dx dy dx0
            (((ny / block_rows).toNat * block_rows.toNat) % 2)
            nx.toNat (ny % block_rows).toNat] :
          List (List (ℚ × ℚ × ℚ))).getD 2 []) =
          nrowPositions dx dy dx0
            (((ny / block_rows).toNat * block_rows.toNat) % 2)
            nx.toNat (ny % block_rows).toNat := rfl
      rw [hgd, nrowPositions_shift]
      have hadd := rowsSlice_add dx dy dx0 nx.toNat 0
        ((ny / block_rows).toNat * block_rows.toNat) (ny % block_rows).toNat
      rw [Nat.zero_add] at hadd
      rw [← hadd, hpart, rowsSlice_zero_start]

/-- Closed instance of C4 at nx = 2, ny = 5, blockRows = 2 (the spec's
scenario C: two full blocks plus a one-row remainder). -/
theorem C4_block_assembly_witness :
    ∃ A : AsmModel,
      make_pattern_assembly 2 5 1 1 (1/2) 2 = .ok A ∧
      A.protos.length = (if ((5:ℤ) % 2).toNat = 0 then 2 else 3) ∧
      A.protos.length ≤ 3 ∧
      A.placements.length = ((5:ℤ) / 2).toNat +
        (if ((5:ℤ) % 2).toNat = 0 then 0 else 1) ∧
      A.protos.getD 0 [] = nrowPositions 1 1 (1/2) 0 (2:ℤ).toNat (2:ℤ).toNat ∧
      A.protos.getD 1 [] = nrowPositions 1 1 (1/2) 1 (2:ℤ).toNat (2:ℤ).toNat ∧
      A.placements.take ((5:ℤ) / 2).toNat =
        (List.range ((5:ℤ) / 2).toNat).map (fun b =>
          ({ protoIdx := if (b * (2:ℤ).toNat) % 2 = 1 then 1 else 0,
             loc := (0, ((b * (2:ℤ).toNat : ℕ) : ℚ) * 1, 0) } : Placement)) ∧
      (((5:ℤ) % 2).toNat ≠ 0 →
        A.placements.getLast? = some ⟨2,
          (0, ((((5:ℤ) / 2).toNat * (2:ℤ).toNat : ℕ) : ℚ) * 1, 0)⟩ ∧
        A.protos.getD 2 [] = nrowPositions 1 1 (1/2)
          ((((5:ℤ) / 2).toNat * (2:ℤ).toNat) % 2)
          (2:ℤ).toNat ((5:ℤ) % 2).toNat) ∧
      flattenAsm A = latticePositions 1 1 (1/2) (2:ℤ).toNat (5:ℤ).toNat :=
  C4_block_assembly 2 5 2 1 1 (1/2) (by decide) (by decide) (by norm_num)
    (by norm_num) (by decide) (by decide)

/-- Claim C8: `make_pattern_assembly` raises an invalid-argument error
exactly when its preconditions are violated — in particular for every
blockRows outside [1, ny) — before any geometry construction; and when
the frame generator's own value checks pass, it raises exactly when the
inner opening is not strictly smaller than the outer extent (clearance ≥
margin, so no ring would remain), with no frame added. -/
theorem C8_invalid_arguments (nx ny block_rows : ℤ) (dx dy dx0 : ℚ)
    (assyZmin assyZmax st margin edge clearance : ℚ) :
    ((∃ m, make_pattern_assembly nx ny dx dy dx0 block_rows = .error m) ↔
      ¬(0 < nx ∧ 0 < ny ∧ 0 < dx ∧ 0 < dy ∧
        1 ≤ block_rows ∧ block_rows < ny)) ∧
    (0 < st → 0 ≤ margin → 0 ≤ clearance → 0 < nx → 0 < ny → 0 < dx →
      0 < dy → 0 < edge → assyZmin + st < assyZmax →
      ((∃ m, add_frame_around_pattern assyZmin assyZmax st margin nx ny dx dy
          dx0 edge clearance = .error m) ↔ margin ≤ clearance)) := by
  constructor
  · constructor
    · rintro ⟨m, hm⟩ hpre
      obtain ⟨h1, h2, h3, h4, h5, h6⟩ := hpre
      rw [make_pattern_assembly_ok nx ny block_rows dx dy dx0 h1 h2 h3 h4 h5
        h6] at hm
      exact Except.noConfusion hm
    · intro h
      simp only [make_pattern_assembly]
      by_cases h1 : nx ≤ 0 ∨ ny ≤ 0
      · exact ⟨_, if_pos h1⟩
      · by_cases h2 : dx ≤ 0 ∨ dy ≤ 0
        · exact ⟨_, by rw [if_neg h1, if_pos h2]⟩
        · have h3 : ¬(1 ≤ block_rows ∧ block_rows < ny) := by
            by_contra h3
            push_neg at h1 h2
            exact h ⟨h1.1, h1.2, h2.1, h2.2, h3.1, h3.2⟩
          exact ⟨_, by rw [if_neg h1, if_neg h2, if_pos h3]⟩
  · intro h1 h2 h3 h4 h5 h6 h7 h8 h9
    simp only [add_frame_around_pattern]
    rw [if_neg (not_le.mpr h1), if_neg (by push_neg; exact ⟨h2, h3⟩),
        if_neg (by push_neg; exact ⟨h4, h5⟩),
        if_neg (by push_neg; exact ⟨h6, h7⟩), if_neg (not_le.mpr h8),
        if_neg (not_le.mpr (by linarith))]
    by_cases hmc : margin ≤ clearance
    · rw [if_pos (Or.inl (by linarith))]
      simp [hmc]
    · rw [if_neg (by push_neg at hmc ⊢; exact ⟨by linarith, by linarith⟩)]
      simp [hmc]

/-- Closed instance of C8: blockRows = 5 outside [1, 3) raises, and a
frame with clearance 1 ≥ margin 1/2 raises. -/
theorem C8_invalid_arguments_witness :
    (∃ m, make_pattern_assembly 2 3 1 1 0 5 = .error m) ∧
    (∃ m, add_frame_around_pattern 0 10 1 (1/2) 2 3 1 1 0 1 1 = .error m) :=
  ⟨(C8_invalid_arguments 2 3 5 1 1 0 0 10 1 (1/2) 1 1).1.mpr
      (fun h => absurd h.2.2.2.2.2 (by decide)),
   ((C8_invalid_arguments 2 3 5 1 1 0 0 10 1 (1/2) 1 1).2 (by norm_num)
      (by norm_num) (by norm_num) (by decide) (by decide) (by norm_num)
      (by norm_num) (by norm_num) (by norm_num)).mpr (by norm_num)⟩

/-- Claim C7 (amended): `make_substrate_from_pattern_xy` produces the
prism of exactly the claim's dimensions — footprint expanded by the
margin on each side, centred on the footprint, top face at the pattern's
minimum Z shifted by the z-offset — while `add_substrate` expands the
placement footprint by `margin + edge_length/2` on each side (covering
the cells' half-width), centred accordingly, with its top face at the
assembly's minimum Z and no z-offset parameter. -/
theorem C7_substrate (patternZmin assyZmin : ℚ) (nx ny : ℤ)
    (dx dy dx0 margin h z_offset thickness edge : ℚ) (bb : PatternBBox)
    (hnx : 0 < nx) (hny : 0 < ny) (hdx : 0 < dx) (hdy : 0 < dy)
    (hbb : pattern_bounding_box_xy nx ny dx dy dx0 = .ok bb)
    (hh : 0 < h)
    (hsx : 0 < (bb.xmax - bb.xmin) + 2 * margin)
    (hsy : 0 < (bb.ymax - bb.ymin) + 2 * margin) :
    make_substrate_from_pattern_xy patternZmin nx ny dx dy dx0 margin margin h
        z_offset =
      .ok ⟨(bb.xmax - bb.xmin) + 2 * margin, (bb.ymax - bb.ymin) + 2 * margin,
           h, (bb.xmin + bb.xmax) / 2, (bb.ymin + bb.ymax) / 2,
           patternZmin - h / 2 + z_offset⟩ ∧
    (patternZmin - h / 2 + z_offset) + h / 2 = patternZmin + z_offset ∧
    add_substrate assyZmin thickness margin nx ny dx dy dx0 edge =
      ⟨(bb.xmax - bb.xmin) + 2 * (margin + edge / 2),
       (bb.ymax - bb.ymin) + 2 * (margin + edge / 2), thickness,
       (bb.xmin + bb.xmax) / 2, (bb.ymin + bb.ymax) / 2,
       assyZmin - thickness / 2⟩ ∧
    (add_substrate assyZmin thickness margin nx ny dx dy dx0 edge).cz +
      thickness / 2 = assyZmin := by
  have hmk : make_substrate_from_pattern_xy patternZmin nx ny dx dy dx0 margin
      margin h z_offset =
      .ok ⟨(bb.xmax - bb.xmin) + 2 * margin, (bb.ymax - bb.ymin) + 2 * margin,
           h, (bb.xmin + bb.xmax) / 2, (bb.ymin + bb.ymax) / 2,
           patternZmin - h / 2 + z_offset⟩ := by
    have hv : ¬((bb.xmax - bb.xmin) + 2 * margin ≤ 0 ∨
        (bb.ymax - bb.ymin) + 2 * margin ≤ 0) := by
      push_neg
      exact ⟨hsx, hsy⟩
    simp only [make_substrate_from_pattern_xy, hbb, if_neg (not_le.mpr hh),
      if_neg hv]
  have hcz : (add_substrate assyZmin thickness margin nx ny dx dy dx0 edge).cz
      + thickness / 2 = assyZmin := by
    simp only [add_substrate]
    ring
  simp only [pattern_bounding_box_xy] at hbb
  rw [if_neg (by push_neg; exact ⟨hnx, hny⟩),
      if_neg (by push_neg; exact ⟨hdx, hdy⟩)] at hbb
  by_cases hny2 : 2 ≤ ny
  · rw [if_pos hny2] at hbb
    have hb := Except.ok.inj hbb
    subst hb
    refine ⟨hmk, by ring, ?_, hcz⟩
    simp only [add_substrate]
    rw [if_pos hny2, if_pos hny2]
    congr 1 <;> ring
  · rw [if_neg hny2] at hbb
    have hb := Except.ok.inj hbb
    subst hb
    refine ⟨hmk, by ring, ?_, hcz⟩
    simp only [add_substrate]
    rw [if_neg hny2, if_neg hny2]
    congr 1 <;> ring

/-- Claim C7 counterexample: at nx = ny = 1, dx = dy = 1, dx0 = 0 the
footprint is the degenerate point box [0,0]×[0,0]; with margin 0 and
edge length 1, `add_substrate` builds a substrate of X size 1 =
footprint-extent + edge_length + 2*margin, not footprint-extent +
2*margin = 0 as the claim specifies. -/
theorem C7_substrate_cex :
    pattern_bounding_box_xy 1 1 1 1 0 = .ok ⟨0, 0, 0, 0⟩ ∧
    (add_substrate 0 1 0 1 1 1 1 0 1).sizeX = 1 ∧
    (add_substrate 0 1 0 1 1 1 1 0 1).sizeX ≠ (0 - 0) + 2 * 0 := by
  refine ⟨by norm_num [pattern_bounding_box_xy], ?_, ?_⟩ <;>
    norm_num [add_substrate]

/-- Closed instance of C7 (amended) at nx = ny = 2, dx = dy = 1, dx0 = 0,
margin 1, thickness 2 and 3, edge length 1. -/
theorem C7_substrate_witness :
    make_substrate_from_pattern_xy (-5) 2 2 1 1 0 1 1 2 0 =
      .ok ⟨(1 - 0) + 2 * 1, (1 - 0) + 2 * 1, 2, (0 + 1) / 2, (0 + 1) / 2,
           -5 - 2 / 2 + 0⟩ ∧
    ((-5 : ℚ) - 2 / 2 + 0) + 2 / 2 = -5 + 0 ∧
    add_substrate (-5) 3 1 2 2 1 1 0 1 =
      ⟨(1 - 0) + 2 * (1 + 1 / 2), (1 - 0) + 2 * (1 + 1 / 2), 3,
       (0 + 1) / 2, (0 + 1) / 2, -5 - 3 / 2⟩ ∧
    (add_substrate (-5) 3 1 2 2 1 1 0 1).cz + 3 / 2 = -5 :=
  C7_substrate (-5) (-5) 2 2 1 1 0 1 2 0 3 1 ⟨0, 1, 0, 1⟩ (by decide)
    (by decide) (by norm_num) (by norm_num)
    (by norm_num [pattern_bounding_box_xy]) (by norm_num) (by norm_num)
    (by norm_num)

/-- Claim C9: STEP export path handling — a missing extension gets the
default `.step` suffix; an unsupported suffix (case-insensitive) is
rejected with an invalid-argument error; an existing directory is
refused; the success path creates missing parent directories; and an
existing destination without overwrite permission raises a
file-already-exists error with nothing written. -/
theorem C9_step_export_paths (fs : FsModel) (p : PyPath) (overwrite : Bool) :
    (p.name ≠ "" → pathSuffix p.name = "" →
      fs (renderPath { p with name := p.name ++ ".step" }) = .absent →
      validate_step_path fs p overwrite =
        ([.mkdirParents p.dirs], .ok { p with name := p.name ++ ".step" })) ∧
    (p.name ≠ "" → pathSuffix p.name ≠ "" →
      ¬(strLower (pathSuffix p.name) = ".step" ∨
        strLower (pathSuffix p.name) = ".stp") →
      validate_step_path fs p overwrite =
        ([], .error (.valueError "File extension must be .step or .stp"))) ∧
    (p.name ≠ "" → pathSuffix p.name ≠ "" →
      (strLower (pathSuffix p.name) = ".step" ∨
       strLower (pathSuffix p.name) = ".stp") →
      fs (renderPath p) = .dir →
      validate_step_path fs p overwrite =
        ([], .error
          (.valueError "filepath points to a directory, not a file"))) ∧
    (∀ acts path, validate_step_path fs p overwrite = (acts, .ok path) →
      FsAction.mkdirParents path.dirs ∈ acts) ∧
    (p.name ≠ "" → pathSuffix p.name ≠ "" →
      (strLower (pathSuffix p.name) = ".step" ∨
       strLower (pathSuffix p.name) = ".stp") →
      fs (renderPath p) = .file →
      export_step fs p false =
        ([.mkdirParents p.dirs], .error (.fileExistsError (renderPath p)))) := by
  refine ⟨?_, ?_, ?_, ?_, ?_⟩
  · intro hn hs hab
    simp only [validate_step_path, if_neg hn, if_pos hs, validateTail]
    rw [if_neg (by simp [hab]), if_neg (by simp [hab])]
  · intro hn hs hbad
    simp only [validate_step_path, if_neg hn, if_neg hs, if_pos hbad]
  · intro hn hs hgood hd
    simp only [validate_step_path, if_neg hn, if_neg hs,
      if_neg (not_not_intro hgood), validateTail, if_pos hd]
  · intro acts path h
    by_cases hn : p.name = ""
    · simp only [validate_step_path, if_pos hn, Prod.mk.injEq] at h
      exact absurd h.2 (by simp)
    · by_cases hs : pathSuffix p.name = ""
      · simp only [validate_step_path, if_neg hn, if_pos hs, validateTail]
          at h
        by_cases hd :
            fs (renderPath { p with name := p.name ++ ".step" }) = .dir
        · rw [if_pos hd] at h
          simp only [Prod.mk.injEq] at h
          exact absurd h.2 (by simp)
        · rw [if_neg hd] at h
          by_cases hex :
              fs (renderPath { p with name := p.name ++ ".step" }) ≠ .absent ∧
                overwrite = false
          · rw [if_pos hex] at h
            simp only [Prod.mk.injEq] at h
            exact absurd h.2 (by simp)
          · rw [if_neg hex] at h
            simp only [Prod.mk.injEq] at h
            obtain ⟨ha, hb⟩ := h
            have hp := Except.ok.inj hb
            subst ha
            rw [← hp]
            simp
      · by_cases hbad : ¬(strLower (pathSuffix p.name) = ".step" ∨
            strLower (pathSuffix p.name) = ".stp")
        · simp only [validate_step_path, if_neg hn, if_neg hs, if_pos hbad,
            Prod.mk.injEq] at h
          exact absurd h.2 (by simp)
        · simp only [validate_step_path, if_neg hn, if_neg hs, if_neg hbad,
            validateTail] at h
          by_cases hd : fs (renderPath p) = .dir
          · rw [if_pos hd] at h
            simp only [Prod.mk.injEq] at h
            exact absurd h.2 (by simp)
          · rw [if_neg hd] at h
            by_cases hex : fs (renderPath p) ≠ .absent ∧ overwrite = false
            · rw [if_pos hex] at h
              simp only [Prod.mk.injEq] at h
              exact absurd h.2 (by simp)
            · rw [if_neg hex] at h
              simp only [Prod.mk.injEq] at h
              obtain ⟨ha, hb⟩ := h
              have hp := Except.ok.inj hb
              subst ha
              rw [← hp]
              simp
  · intro hn hs hgood hf
    have hval : validate_step_path fs p false =
        ([.mkdirParents p.dirs], .error (.fileExistsError (renderPath p))) := by
      simp only [validate_step_path, if_neg hn, if_neg hs,
        if_neg (not_not_intro hgood), validateTail]
      simp [hf]
    simp only [export_step, hval]

/-- Closed instance of C9: exporting to `out/model` on an empty
filesystem appends the default suffix, creates the parent directory and
succeeds; with `out/model.step` already existing as a file and overwrite
off, export raises file-already-exists and writes nothing. -/
theorem C9_step_export_paths_witness :
    validate_step_path fsEmpty ⟨["out"], "model"⟩ true =
      ([.mkdirParents ["out"]], .ok ⟨["out"], "model.step"⟩) ∧
    export_step fsOneFile ⟨["out"], "model.step"⟩ false =
      ([.mkdirParents ["out"]], .error (.fileExistsError "out/model.step")) :=
  ⟨(C9_step_export_paths fsEmpty ⟨["out"], "model"⟩ true).1 (by decide)
      (by decide) rfl,
   (C9_step_export_paths fsOneFile ⟨["out"], "model.step"⟩ false).2.2.2.2
      (by decide) (by decide) (Or.inl (by decide)) rfl⟩

/-- With `keep="bottom"`, default height and a non-positive plane, the
halfspace box of `cut_at_z_plane_from_top` covers the whole shifted
solid below the plane, so the cut equals the exact halfspace cut of the
shifted solid. -/
theorem cut_bottom_eq (S : SolidPts) (z_plane pad_xy : ℝ)
    (hlaw : S.lawful) (hpad : 0 ≤ pad_xy) (hzp : z_plane ≤ 0) :
    cut_at_z_plane_from_top S z_plane .bottom pad_xy none =
      translatePts S.pts (0, 0, -S.bb.zmax) ∩ {p | p.2.2 ≤ z_plane} := by
  ext q
  simp only [cut_at_z_plane_from_top, translatePts, boxPts, bbTranslateR,
    Option.getD_none, Set.mem_inter_iff, Set.mem_setOf_eq]
  constructor
  · rintro ⟨hq, hbox⟩
    obtain ⟨-, -, -, -, -, h6⟩ := hbox
    exact ⟨hq, by linarith⟩
  · rintro ⟨hq, hz⟩
    have hb := hlaw _ hq
    obtain ⟨b1, b2, b3, b4, b5, b6⟩ := hb
    dsimp only at b1 b2 b3 b4 b5 b6
    have hH1 : (1 : ℝ) ≤
        max 1 (2 * ((S.bb.zmax + -S.bb.zmax) - (S.bb.zmin + -S.bb.zmax))) :=
      le_max_left _ _
    have hH2 : 2 * ((S.bb.zmax + -S.bb.zmax) - (S.bb.zmin + -S.bb.zmax)) ≤
        max 1 (2 * ((S.bb.zmax + -S.bb.zmax) - (S.bb.zmin + -S.bb.zmax))) :=
      le_max_right _ _
    refine ⟨hq, by linarith, by linarith, by linarith, by linarith,
      by linarith, by linarith⟩

/-- Claim C10: `cut_at_z_plane_from_top` translates the input solid by
(0, 0, -zmax) of its bounding box so the top face sits at z = 0 and
interprets `z_plane` in that shifted frame; the returned bottom half is
the halfspace cut of the shifted solid (an original point `p` survives
iff `p.z - zmax ≤ z_plane`), and the shifted solid's top is at z = 0 —
not at the input's original zmax. -/
theorem C10_cut_shifted_frame (S : SolidPts) (z_plane pad_xy : ℝ)
    (hlaw : S.lawful) (htop : S.topTight) (hpad : 0 ≤ pad_xy)
    (hzp : z_plane ≤ 0) :
    cut_at_z_plane_from_top S z_plane .bottom pad_xy none =
      translatePts S.pts (0, 0, -S.bb.zmax) ∩ {p | p.2.2 ≤ z_plane} ∧
    (∀ q ∈ translatePts S.pts (0, 0, -S.bb.zmax), q.2.2 ≤ 0) ∧
    (∃ q ∈ translatePts S.pts (0, 0, -S.bb.zmax), q.2.2 = 0) := by
  refine ⟨cut_bottom_eq S z_plane pad_xy hlaw hpad hzp, ?_, ?_⟩
  · intro q hq
    simp only [translatePts, Set.mem_setOf_eq] at hq
    have hb := hlaw _ hq
    obtain ⟨-, -, -, -, -, b6⟩ := hb
    dsimp only at b6
    linarith
  · obtain ⟨p, hp, hz⟩ := htop
    refine ⟨(p.1, p.2.1, p.2.2 - S.bb.zmax), ?_, by dsimp only; rw [hz]; ring⟩
    simp only [translatePts, Set.mem_setOf_eq]
    have hz3 : p.2.2 - S.bb.zmax - -S.bb.zmax = p.2.2 := by ring
    rw [hz3, sub_zero, sub_zero]
    exact hp

/-- The unit cube's recorded bounding box encloses its points. -/
theorem unitCubeSolid_lawful : unitCubeSolid.lawful := by
  intro p hp
  simp only [unitCubeSolid, boxPts, Set.mem_setOf_eq] at hp
  obtain ⟨h1, h2, h3, h4, h5, h6⟩ := hp
  simp only [unitCubeSolid]
  refine ⟨by linarith, by linarith, by linarith, by linarith, by linarith,
    by linarith⟩

/-- The unit cube attains its bounding-box top at (0, 0, 1). -/
theorem unitCubeSolid_topTight : unitCubeSolid.topTight := by
  refine ⟨(0, 0, 1), ?_, rfl⟩
  simp only [unitCubeSolid, boxPts, Set.mem_setOf_eq]
  norm_num

/-- Closed instance of C10: the unit cube resting on z ∈ [0, 1], cut at
z_plane = -1/2 keeping the bottom. -/
theorem C10_cut_shifted_frame_witness :
    cut_at_z_plane_from_top unitCubeSolid (-(1/2)) .bottom 1 none =
      translatePts unitCubeSolid.pts (0, 0, -unitCubeSolid.bb.zmax) ∩
        {p | p.2.2 ≤ -(1/2)} ∧
    (∀ q ∈ translatePts unitCubeSolid.pts (0, 0, -unitCubeSolid.bb.zmax),
      q.2.2 ≤ 0) ∧
    (∃ q ∈ translatePts unitCubeSolid.pts (0, 0, -unitCubeSolid.bb.zmax),
      q.2.2 = 0) :=
  C10_cut_shifted_frame unitCubeSolid (-(1/2)) 1 unitCubeSolid_lawful
    unitCubeSolid_topTight zero_le_one (by norm_num)

/-- `math.radians (math.degrees x) = x`: the test file's angle passes
through a degree conversion and back. -/
theorem radOfDeg_degOfRad (x : ℝ) : radOfDeg (degOfRad x) = x := by
  unfold radOfDeg degOfRad
  field_simp

/-- The cut angle's sine is non-negative: `atan √2` lies in `[0, π]`. -/
theorem sin_arctan_sqrt2_nonneg :
    0 ≤ Real.sin (Real.arctan (Real.sqrt 2)) := by
  have h0 : 0 ≤ Real.arctan (Real.sqrt 2) := by
    have h := Real.arctan_strictMono.monotone (Real.sqrt_nonneg 2)
    rwa [Real.arctan_zero] at h
  exact Real.sin_nonneg_of_nonneg_of_le_pi h0
    (le_trans (le_of_lt (Real.arctan_lt_pi_div_two _))
      (by linarith [Real.pi_pos]))

/-- Claim C6: the unit-cell pipeline rotates the oversized cube 45°
about the Z axis through the origin, then `atan √2` degrees (≈54.7356°)
about the X axis through the origin, and cuts with the half-space plane
at `z = -scaleFactor·0.5·sin(atan √2)·(√2·edgeLength)` in the cut
function's working frame, keeping the caller-requested bottom half; the
result is a pure function of its inputs, hence deterministic. -/
theorem C6_unit_cell (e s : ℝ) (bbRot : BBox3R) (he : 0 < e) (hs : 0 < s)
    (hlaw : (rotate_hexagonal_cube_corner (cubeSolid e s) bbRot).lawful) :
    unit_cell_test e s bbRot =
      translatePts
        (rotXpt (degOfRad (Real.arctan (Real.sqrt 2))) ''
          (rotZpt 45 '' boxPts (s * e) (s * e) (s * e) 0 0 0))
        (0, 0, -bbRot.zmax) ∩
      {p | p.2.2 ≤
        -(s * (1/2) * Real.sin (Real.arctan (Real.sqrt 2)) *
          (Real.sqrt 2 * e))} := by
  have hplane : -s * (0.5 : ℝ) *
      Real.sin (radOfDeg (degOfRad (Real.arctan (Real.sqrt 2)))) *
      (Real.sqrt 2 * e) =
      -(s * (1/2) * Real.sin (Real.arctan (Real.sqrt 2)) *
        (Real.sqrt 2 * e)) := by
    rw [radOfDeg_degOfRad]
    ring
  have hzp : -(s * (1/2) * Real.sin (Real.arctan (Real.sqrt 2)) *
      (Real.sqrt 2 * e)) ≤ 0 := by
    have h1 := sin_arctan_sqrt2_nonneg
    have h2 : (0:ℝ) ≤ Real.sqrt 2 := Real.sqrt_nonneg 2
    have hX : 0 ≤ s * (1/2) * Real.sin (Real.arctan (Real.sqrt 2)) *
        (Real.sqrt 2 * e) :=
      mul_nonneg (mul_nonneg (mul_nonneg hs.le (by norm_num)) h1)
        (mul_nonneg h2 he.le)
    linarith
  simp only [unit_cell_test]
  rw [hplane, cut_bottom_eq _ _ _ hlaw zero_le_one hzp]
  rfl

/-- Closed-interval triangle bound for one rotated coordinate. -/
theorem abs_lincomb_sub_le (a b c s : ℝ) (hc : |c| ≤ 1) (hs : |s| ≤ 1) :
    |a * c - b * s| ≤ |a| + |b| := by
  calc |a * c - b * s| ≤ |a * c| + |b * s| := abs_sub _ _
    _ = |a| * |c| + |b| * |s| := by rw [abs_mul, abs_mul]
    _ ≤ |a| * 1 + |b| * 1 :=
      add_le_add (mul_le_mul_of_nonneg_left hc (abs_nonneg a))
        (mul_le_mul_of_nonneg_left hs (abs_nonneg b))
    _ = |a| + |b| := by ring

/-- Closed-interval triangle bound for the other rotated coordinate. -/
theorem abs_lincomb_add_le (a b c s : ℝ) (hc : |c| ≤ 1) (hs : |s| ≤ 1) :
    |a * c + b * s| ≤ |a| + |b| := by
  calc |a * c + b * s| ≤ |a * c| + |b * s| := abs_add _ _
    _ = |a| * |c| + |b| * |s| := by rw [abs_mul, abs_mul]
    _ ≤ |a| * 1 + |b| * 1 :=
      add_le_add (mul_le_mul_of_nonneg_left hc (abs_nonneg a))
        (mul_le_mul_of_nonneg_left hs (abs_nonneg b))
    _ = |a| + |b| := by ring

/-- The rotated witness cube stays inside the big bounding box. -/
theorem rotCube_lawful_witness :
    (rotate_hexagonal_cube_corner (cubeSolid 1 2) bigBB).lawful := by
  intro p hp
  simp only [rotate_hexagonal_cube_corner, cubeSolid, Set.mem_image] at hp
  obtain ⟨q, ⟨w, hw, rfl⟩, rfl⟩ := hp
  simp only [boxPts, Set.mem_setOf_eq] at hw
  obtain ⟨w1l, w1r, w2l, w2r, w3l, w3r⟩ := hw
  have hw1 : |w.1| ≤ 1 := abs_le.mpr ⟨by linarith, by linarith⟩
  have hw2 : |w.2.1| ≤ 1 := abs_le.mpr ⟨by linarith, by linarith⟩
  have hw3 : |w.2.2| ≤ 1 := abs_le.mpr ⟨by linarith, by linarith⟩
  have hx : |w.1 * Real.cos (radOfDeg 45) - w.2.1 * Real.sin (radOfDeg 45)|
      ≤ 2 := by
    have := abs_lincomb_sub_le w.1 w.2.1 (Real.cos (radOfDeg 45))
      (Real.sin (radOfDeg 45)) (Real.abs_cos_le_one _) (Real.abs_sin_le_one _)
    linarith
  have hy : |w.1 * Real.sin (radOfDeg 45) + w.2.1 * Real.cos (radOfDeg 45)|
      ≤ 2 := by
    have := abs_lincomb_add_le w.1 w.2.1 (Real.sin (radOfDeg 45))
      (Real.cos (radOfDeg 45)) (Real.abs_sin_le_one _) (Real.abs_cos_le_one _)
    linarith
  have hyz : |(w.1 * Real.sin (radOfDeg 45) + w.2.1 * Real.cos (radOfDeg 45)) *
      Real.cos (radOfDeg (degOfRad (Real.arctan (Real.sqrt 2)))) -
      w.2.2 * Real.sin (radOfDeg (degOfRad (Real.arctan (Real.sqrt 2))))|
      ≤ 3 := by
    have := abs_lincomb_sub_le
      (w.1 * Real.sin (radOfDeg 45) + w.2.1 * Real.cos (radOfDeg 45)) w.2.2
      (Real.cos (radOfDeg (degOfRad (Real.arctan (Real.sqrt 2)))))
      (Real.sin (radOfDeg (degOfRad (Real.arctan (Real.sqrt 2)))))
      (Real.abs_cos_le_one _) (Real.abs_sin_le_one _)
    linarith
  have hzz : |(w.1 * Real.sin (radOfDeg 45) + w.2.1 * Real.cos (radOfDeg 45)) *
      Real.sin (radOfDeg (degOfRad (Real.arctan (Real.sqrt 2)))) +
      w.2.2 * Real.cos (radOfDeg (degOfRad (Real.arctan (Real.sqrt 2))))|
      ≤ 3 := by
    have := abs_lincomb_add_le
      (w.1 * Real.sin (radOfDeg 45) + w.2.1 * Real.cos (radOfDeg 45)) w.2.2
      (Real.sin (radOfDeg (degOfRad (Real.arctan (Real.sqrt 2)))))
      (Real.cos (radOfDeg (degOfRad (Real.arctan (Real.sqrt 2)))))
      (Real.abs_sin_le_one _) (Real.abs_cos_le_one _)
    linarith
  simp only [rotate_hexagonal_cube_corner, rotXpt, rotZpt, bigBB]
  obtain ⟨hx1, hx2⟩ := abs_le.mp hx
  obtain ⟨hyz1, hyz2⟩ := abs_le.mp hyz
  obtain ⟨hzz1, hzz2⟩ := abs_le.mp hzz
  exact ⟨by linarith, by linarith, by linarith, by linarith, by linarith,
    by linarith⟩

/-- Closed instance of C6 with edge length 1 and scale factor 2. -/
theorem C6_unit_cell_witness :
    unit_cell_test 1 2 bigBB =
      translatePts
        (rotXpt (degOfRad (Real.arctan (Real.sqrt 2))) ''
          (rotZpt 45 '' boxPts (2 * 1) (2 * 1) (2 * 1) 0 0 0))
        (0, 0, -bigBB.zmax) ∩
      {p | p.2.2 ≤
        -(2 * (1/2) * Real.sin (Real.arctan (Real.sqrt 2)) *
          (Real.sqrt 2 * 1))} :=
  C6_unit_cell 1 2 bigBB zero_lt_one two_pos rotCube_lawful_witness
